import Mathlib

/-!
# libtroll: interposition of `printf` and `puts` (src/main.c)

A shallow embedding of `src/main.c`.  The file defines three getters built by
the macro `MAKE_ORIG_GETTER` (each one is a single `dlsym(RTLD_NEXT, name)`),
three string constants, and two wrappers, `printf` and `puts`, compiled when
`COSMETIC_LEVEL` is defined (by `options.h`, which is not among the sources; the
wrappers are taken as compiled in).

The things the C code reaches but does not define are made explicit:

* the dynamic symbol search order is a list of modules, one of which is this
  library (`Module.interposer`); every other module carries the functions it
  defines (`Module.lib`);
* a function pointer is a `Handle` (which module, which symbol); the null
  pointer is `none`;
* the process state `World` holds the bytes written to standard output and a
  log of the dynamic lookups and of the calls made through function pointers;
* a call through a null pointer is undefined behaviour in C; here it ends the
  run with `Outcome.crash`.
-/

namespace Libtroll

/-- A C string, without its terminating NUL. -/
abbrev CStr := List Char

/-- One variadic argument. -/
inductive Arg where
  | int (v : Int)
  | str (s : CStr)
  | chr (c : Char)
  deriving DecidableEq

/-- What a function defined outside this library does when called with a string
and an argument list (the list is empty for `puts`): the value it returns and the
bytes it appends to standard output.  Such a function is a leaf: it does not call
back into this library. -/
abbrev Impl := CStr → List Arg → Int × List Char

/-- A module of the dynamic symbol search order. -/
inductive Module where
  | interposer
  | lib (defs : List (String × Impl))

/-- Recognises this library among the modules. -/
def Module.isInterposer : Module → Bool
  | .interposer => true
  | .lib _ => false

/-- The function symbols this library exports: the three getters and, with
`COSMETIC_LEVEL` defined, the two wrappers. -/
def interposerExports : List String :=
  ["get_orig_printf", "get_orig_vprintf", "get_orig_puts", "printf", "puts"]

/-- Does the module define the symbol? -/
def Module.defines (name : String) : Module → Bool
  | .interposer => interposerExports.contains name
  | .lib defs => (defs.lookup name).isSome

/-- A non-null function pointer: the definition of `name` in the module at
position `modIdx` of the search order. -/
structure Handle where
  modIdx : Nat
  name : String
  deriving DecidableEq

/-- An entry of the log. -/
inductive Event where
  | lookup (name : String)
  | call (target : Option Handle) (s : CStr) (args : List Arg)
  deriving DecidableEq

/-- The observable process state. -/
structure World where
  out : List Char
  trace : List Event
  deriving DecidableEq

/-- The state of a process that has written nothing and called nothing. -/
def World.empty : World := ⟨[], []⟩

/-- How a call ends. -/
inductive Outcome where
  | ret (v : Int) (w : World)
  | crash (w : World)
  | outOfFuel
  deriving DecidableEq

/-- Sequencing: go on with the returned value and state, stop otherwise. -/
def Outcome.bind (o : Outcome) (k : Int → World → Outcome) : Outcome :=
  match o with
  | .ret v w => k v w
  | .crash w => .crash w
  | .outOfFuel => .outOfFuel

/-- Position of this library in the search order. -/
def selfIndex (order : List Module) : Nat :=
  order.findIdx Module.isInterposer

/-- First module defining `name` among `ms`, whose head sits at position `i`. -/
def findFrom (name : String) : List Module → Nat → Option Handle
  | [], _ => none
  | m :: ms, i => if m.defines name then some ⟨i, name⟩ else findFrom name ms (i + 1)

/-- The address `dlsym(RTLD_NEXT, name)` yields when called from this library: the
next definition of `name` after this library in the search order, or null. -/
def dlsym_next (order : List Module) (name : String) : Option Handle :=
  findFrom name (order.drop (selfIndex order + 1)) (selfIndex order + 1)

/-- The call `dlsym(RTLD_NEXT, name)`, with the lookup recorded. -/
def dlsym_RTLD_NEXT (order : List Module) (name : String) (w : World) :
    Option Handle × World :=
  (dlsym_next order name, { w with trace := w.trace ++ [Event.lookup name] })

/-- The getter `get_orig_<name>` generated by the macro. -/
def MAKE_ORIG_GETTER (name : String) (order : List Module) (w : World) :
    Option Handle × World :=
  let orig_f := dlsym_RTLD_NEXT order name w
  orig_f

def get_orig_printf := MAKE_ORIG_GETTER "printf"
def get_orig_vprintf := MAKE_ORIG_GETTER "vprintf"
def get_orig_puts := MAKE_ORIG_GETTER "puts"

def TTY_RESET : CStr := "\x1b[0m".toList
def TTY_BOLD : CStr := "\x1b[1m".toList
def TTY_PINK : CStr := "\x1b[95m".toList

/-- What calling through a non-null pointer does. -/
abbrev Call := Handle → CStr → List Arg → World → Outcome

/-- A call through a function pointer. -/
def callPtr (call : Call) (p : Option Handle) (s : CStr) (args : List Arg) (w : World) :
    Outcome :=
  let w1 : World := { w with trace := w.trace ++ [Event.call p s args] }
  match p with
  | none => .crash w1
  | some h => call h s args w1

/-- The wrapper `int printf(const char* format, ...)`. -/
def printf (order : List Module) (call : Call) (format : CStr) (args : List Arg)
    (w : World) : Outcome :=
  let (orig_printf, w1) := get_orig_printf order w
  (callPtr call orig_printf (TTY_BOLD ++ TTY_PINK) [] w1).bind fun _ w2 =>
  let (orig_vprintf, w3) := get_orig_vprintf order w2
  (callPtr call orig_vprintf format args w3).bind fun ret w4 =>
  (callPtr call orig_printf TTY_RESET [] w4).bind fun _ w5 =>
  .ret ret w5

/-- The wrapper `int puts(const char* string)`. -/
def puts (order : List Module) (call : Call) (string : CStr) (w : World) : Outcome :=
  let (orig_printf, w1) := get_orig_printf order w
  (callPtr call orig_printf (TTY_BOLD ++ TTY_PINK) [] w1).bind fun _ w2 =>
  let (orig_puts, w3) := get_orig_puts order w2
  (callPtr call orig_puts string [] w3).bind fun ret w4 =>
  (callPtr call orig_printf TTY_RESET [] w4).bind fun _ w5 =>
  .ret ret w5

/-- Running the function a handle designates, with a bound on the depth of nested
calls.  A handle into this library runs the wrapper of that name; a handle into
another module runs the function defined there. -/
def exec (order : List Module) : Nat → Call
  | 0, _, _, _, _ => .outOfFuel
  | n + 1, h, s, args, w =>
    match order[h.modIdx]? with
    | some .interposer =>
      if h.name = "printf" then printf order (exec order n) s args w
      else if h.name = "puts" then puts order (exec order n) s w
      else .crash w
    | some (.lib defs) =>
      match defs.lookup h.name with
      | some impl => .ret (impl s args).1 { w with out := w.out ++ (impl s args).2 }
      | none => .crash w
    | none => .crash w

/-! ## The C library: the standard behaviour of the three originals -/

/-- Decimal text of an `int`, as `%d` prints it. -/
def fmtInt (v : Int) : List Char :=
  if v < 0 then '-' :: Nat.toDigits 10 v.natAbs else Nat.toDigits 10 v.natAbs

/-- One conversion specification `%spec`: the bytes it produces and the arguments
left, or `none` where C leaves the behaviour undefined (missing or ill-typed
argument) or the conversion lies outside the fragment modelled (`%%`, `%d`, `%s`,
`%c`, without flags, width or precision). -/
def stdConv (spec : Char) (args : List Arg) : Option (List Char × List Arg) :=
  if spec = '%' then some (['%'], args)
  else if spec = 'd' then
    match args with
    | Arg.int v :: rest => some (fmtInt v, rest)
    | _ => none
  else if spec = 's' then
    match args with
    | Arg.str s :: rest => some (s, rest)
    | _ => none
  else if spec = 'c' then
    match args with
    | Arg.chr c :: rest => some ([c], rest)
    | _ => none
  else none

/-- Formatting as the C standard describes it for `printf`: ordinary characters
are copied, a conversion specification consumes arguments.  Yields the bytes
produced and the arguments not consumed. -/
def stdFormat : CStr → List Arg → Option (List Char × List Arg)
  | [], args => some ([], args)
  | [c], args => if c = '%' then none else some ([c], args)
  | c :: d :: rest, args =>
    if c = '%' then
      match stdConv d args with
      | some (o, args1) => (stdFormat rest args1).map fun r => (o ++ r.1, r.2)
      | none => none
    else (stdFormat (d :: rest) args).map fun r => (c :: r.1, r.2)

/-- Standard `vprintf` on a stream that accepts every write: returns the number of
characters written.  Where `stdFormat` gives no result the model reports an output
error and writes nothing. -/
def stdVprintf : Impl := fun format args =>
  match stdFormat format args with
  | some (bytes, _) => ((bytes.length : Int), bytes)
  | none => (-1, [])

/-- Standard `printf`: `vprintf` on the variadic arguments. -/
def stdPrintf : Impl := fun format args => stdVprintf format args

/-- Standard `puts` on a stream that accepts every write: the string followed by a
new-line; the value returned is non-negative (here, as glibc, the count written). -/
def stdPuts : Impl := fun string _ =>
  (((string.length + 1 : Nat) : Int), string ++ ['\n'])

/-- A C library defining the three originals with their standard behaviour. -/
def libc : Module :=
  .lib [("printf", stdPrintf), ("vprintf", stdVprintf), ("puts", stdPuts)]

/-- The usual search order of a process that preloads this library. -/
def preloaded : List Module := [.interposer, libc]


/-! ## The host program and observations on a run -/

/-- The definition a handle designates when it points into a module other than
this library. -/
def implAt (order : List Module) (h : Handle) : Option Impl :=
  match order[h.modIdx]? with
  | some (.lib defs) => defs.lookup h.name
  | _ => none

/-- The shape the two wrappers share: look up `printf`, write the opening
sequence through it, look up the forwarded function `fwd` and call it with the
caller's arguments, write the closing sequence, return the forwarded result. -/
def decorated (order : List Module) (call : Call) (fwd : String) (s : CStr)
    (args : List Arg) (w : World) : Outcome :=
  let (orig_printf, w1) := MAKE_ORIG_GETTER "printf" order w
  (callPtr call orig_printf (TTY_BOLD ++ TTY_PINK) [] w1).bind fun _ w2 =>
  let (orig_fwd, w3) := MAKE_ORIG_GETTER fwd order w2
  (callPtr call orig_fwd s args w3).bind fun ret w4 =>
  (callPtr call orig_printf TTY_RESET [] w4).bind fun _ w5 =>
  .ret ret w5

/-- One call of a wrapper by the host program. -/
inductive Invocation where
  | printf (format : CStr) (args : List Arg)
  | puts (string : CStr)

/-- The host program calls a wrapper; `fuel` bounds the depth of the calls the
wrapper makes in turn. -/
def invoke (order : List Module) (fuel : Nat) : Invocation → World → Outcome
  | .printf format args, w => printf order (exec order fuel) format args w
  | .puts string, w => puts order (exec order fuel) string w

/-- The host program calls wrappers one after the other; the value is that of the
last call (0 when there is none). -/
def runAll (order : List Module) (fuel : Nat) : List Invocation → Int → World → Outcome
  | [], v, w => .ret v w
  | i :: is, _, w => (invoke order fuel i w).bind fun v1 w1 => runAll order fuel is v1 w1

/-- The log at the end of a run. -/
def Outcome.trace : Outcome → List Event
  | .ret _ w => w.trace
  | .crash w => w.trace
  | .outOfFuel => []

/-- The value a run returns, when it returns. -/
def Outcome.value? : Outcome → Option Int
  | .ret v _ => some v
  | .crash _ => none
  | .outOfFuel => none

/-- The bytes on standard output at the end of a run. -/
def Outcome.out : Outcome → List Char
  | .ret _ w => w.out
  | .crash w => w.out
  | .outOfFuel => []

/-- The pointers called through, in order. -/
def callTargets : List Event → List (Option Handle)
  | [] => []
  | .call p _ _ :: es => p :: callTargets es
  | .lookup _ :: es => callTargets es

/-- The call events of a log, in order. -/
def callsOf : List Event → List Event
  | [] => []
  | .call p s a :: es => .call p s a :: callsOf es
  | .lookup _ :: es => callsOf es

/-- Number of dynamic lookups of `name` in a log. -/
def lookupCount (name : String) : List Event → Nat
  | [] => 0
  | .lookup n :: es => (if n = name then 1 else 0) + lookupCount name es
  | .call _ _ _ :: es => lookupCount name es

/-- Number of calls of the `printf` wrapper in a sequence of invocations. -/
def countPrintf : List Invocation → Nat
  | [] => 0
  | .printf _ _ :: is => countPrintf is + 1
  | .puts _ :: is => countPrintf is

/-- Number of calls of the `puts` wrapper in a sequence of invocations. -/
def countPuts : List Invocation → Nat
  | [] => 0
  | .printf _ _ :: is => countPuts is
  | .puts _ :: is => countPuts is + 1

/-- State `w` followed by what `w0` records. -/
def World.append (w w0 : World) : World :=
  ⟨w.out ++ w0.out, w.trace ++ w0.trace⟩

/-- The outcome of a run started from the empty state, replayed after `w`. -/
def Outcome.shift (w : World) : Outcome → Outcome
  | .ret v w0 => .ret v (w.append w0)
  | .crash w0 => .crash (w.append w0)
  | .outOfFuel => .outOfFuel

/-- A library whose `printf` and `vprintf` fail on every call (value -1, nothing
written) and whose `puts` fails likewise. -/
def failingLibc : Module :=
  .lib [("printf", fun _ _ => (-1, [])), ("vprintf", fun _ _ => (-1, [])),
        ("puts", fun _ _ => (-1, []))]

/-- A library that defines `printf` only. -/
def printfOnly : Module := .lib [("printf", stdPrintf)]

/-- A way of calling whose effect does not depend on what the process did before. -/
def Call.Framed (call : Call) : Prop :=
  ∀ h s args w w0, call h s args (w.append w0) = (call h s args w0).shift w

/-- A library whose `printf` fails on every call while `vprintf` and `puts` work. -/
def brokenPrintfLibc : Module :=
  .lib [("printf", fun _ _ => (-1, [])), ("vprintf", stdVprintf), ("puts", stdPuts)]

/-- A run from state `w` ends within the fuel given and makes at most three calls
through function pointers, none of them into this library; when the lookups of
`printf` and of the forwarded function `fwd` both succeed it returns, having made
exactly three calls, none through a null pointer. -/
def BoundedNoReentry (order : List Module) (fwd : String) (w : World) (o : Outcome) :
    Prop :=
  o ≠ .outOfFuel ∧
  ∃ evs, o.trace = w.trace ++ evs ∧
    (callTargets evs).length ≤ 3 ∧
    (∀ h, some h ∈ callTargets evs →
      order[h.modIdx]? ≠ some Module.interposer ∧ (implAt order h).isSome = true) ∧
    ((dlsym_next order "printf").isSome = true → (dlsym_next order fwd).isSome = true →
      (∃ v w1, o = .ret v w1) ∧
      (callTargets evs).length = 3 ∧ ∀ p ∈ callTargets evs, p.isSome = true)

/-! ## Lemmas on the embedding -/

theorem printf_eq_decorated (order : List Module) (call : Call) (format : CStr)
    (args : List Arg) (w : World) :
    printf order call format args w = decorated order call "vprintf" format args w := rfl

theorem puts_eq_decorated (order : List Module) (call : Call) (string : CStr) (w : World) :
    puts order call string w = decorated order call "puts" string [] w := rfl

/-- A handle with a definition in another module runs that definition, at any
positive depth bound. -/
theorem exec_of_implAt {order : List Module} {h : Handle} {impl : Impl}
    (hi : implAt order h = some impl) (n : Nat) (s : CStr) (args : List Arg) (w : World) :
    exec order (n + 1) h s args w
      = .ret (impl s args).1 ⟨w.out ++ (impl s args).2, w.trace⟩ := by
  unfold implAt at hi
  unfold exec
  cases hm : order[h.modIdx]? with
  | none => rw [hm] at hi; simp at hi
  | some m =>
    cases m with
    | interposer => rw [hm] at hi; simp at hi
    | lib defs =>
      rw [hm] at hi
      simp only at hi
      simp only [hi]

/-- The `printf` lookup fails: the first call goes through the null pointer. -/
theorem decorated_printf_null {order : List Module} (call : Call) (fwd : String)
    (s : CStr) (args : List Arg) (w : World)
    (hp : dlsym_next order "printf" = none) :
    decorated order call fwd s args w
      = .crash ⟨w.out, w.trace ++ [.lookup "printf",
          .call none (TTY_BOLD ++ TTY_PINK) []]⟩ := by
  simp [decorated, MAKE_ORIG_GETTER, dlsym_RTLD_NEXT, hp, callPtr, Outcome.bind]

/-- The `printf` lookup succeeds and the lookup of the forwarded function fails:
the opening sequence is written, then the call goes through the null pointer. -/
theorem decorated_fwd_null {order : List Module} {hp : Handle} {pi : Impl}
    (n : Nat) (fwd : String) (s : CStr) (args : List Arg) (w : World)
    (hrp : dlsym_next order "printf" = some hp) (hip : implAt order hp = some pi)
    (hf : dlsym_next order fwd = none) :
    decorated order (exec order (n + 1)) fwd s args w
      = .crash ⟨w.out ++ (pi (TTY_BOLD ++ TTY_PINK) []).2,
          w.trace ++ [.lookup "printf", .call (some hp) (TTY_BOLD ++ TTY_PINK) [],
            .lookup fwd, .call none s args]⟩ := by
  simp [decorated, MAKE_ORIG_GETTER, dlsym_RTLD_NEXT, hrp, hf, callPtr, Outcome.bind,
    exec_of_implAt hip]

/-- Both lookups succeed: three calls, the forwarded result is returned. -/
theorem decorated_resolved {order : List Module} {hp hf : Handle} {pi fi : Impl}
    (n : Nat) (fwd : String) (s : CStr) (args : List Arg) (w : World)
    (hrp : dlsym_next order "printf" = some hp) (hip : implAt order hp = some pi)
    (hrf : dlsym_next order fwd = some hf) (hif : implAt order hf = some fi) :
    decorated order (exec order (n + 1)) fwd s args w
      = .ret (fi s args).1
          ⟨w.out ++ (pi (TTY_BOLD ++ TTY_PINK) []).2 ++ (fi s args).2 ++ (pi TTY_RESET []).2,
           w.trace ++ [.lookup "printf", .call (some hp) (TTY_BOLD ++ TTY_PINK) [],
            .lookup fwd, .call (some hf) s args, .call (some hp) TTY_RESET []]⟩ := by
  simp [decorated, MAKE_ORIG_GETTER, dlsym_RTLD_NEXT, hrp, hrf, callPtr, Outcome.bind,
    exec_of_implAt hip, exec_of_implAt hif]


/-- What `findFrom` finds: a module at or after position `i` that defines the name. -/
theorem findFrom_some {name : String} {ms : List Module} {i : Nat} {h : Handle}
    (hf : findFrom name ms i = some h) :
    h.name = name ∧ i ≤ h.modIdx ∧
      ∃ m, ms[h.modIdx - i]? = some m ∧ m.defines name = true := by
  induction ms generalizing i with
  | nil => simp [findFrom] at hf
  | cons a t ih =>
    unfold findFrom at hf
    by_cases hd : a.defines name = true
    · rw [if_pos hd] at hf
      cases hf
      exact ⟨rfl, Nat.le_refl _, a, by simp, hd⟩
    · rw [if_neg hd] at hf
      obtain ⟨h1, h2, m, h3, h4⟩ := ih hf
      refine ⟨h1, by omega, m, ?_, h4⟩
      have e : h.modIdx - i = (h.modIdx - (i + 1)) + 1 := by omega
      rw [e, List.getElem?_cons_succ]
      exact h3

/-- When this library occurs once in the search order, no module after its
position is this library. -/
theorem after_self_not_interposer {order : List Module}
    (honce : order.countP Module.isInterposer = 1) {j : Nat} {m : Module}
    (hj : selfIndex order < j) (hm : order[j]? = some m) :
    m.isInterposer = false := by
  unfold selfIndex at hj
  induction order generalizing j with
  | nil => simp at hm
  | cons a t ih =>
    rw [List.findIdx_cons] at hj
    rw [List.countP_cons] at honce
    cases hp : a.isInterposer with
    | true =>
      rw [hp] at honce
      simp at honce
      obtain ⟨j1, rfl⟩ : ∃ j1, j = j1 + 1 := ⟨j - 1, by simp [hp] at hj; omega⟩
      rw [List.getElem?_cons_succ] at hm
      have hmem : m ∈ t := List.getElem?_mem hm
      have := honce m hmem
      simpa using this
    | false =>
      rw [hp] at honce hj
      simp at honce hj
      obtain ⟨j1, rfl⟩ : ∃ j1, j = j1 + 1 := ⟨j - 1, by omega⟩
      rw [List.getElem?_cons_succ] at hm
      exact ih honce (by omega) hm

/-- When this library occurs once in the search order, a handle obtained by
`dlsym(RTLD_NEXT, name)` designates a definition of `name` in another module,
placed after this library. -/
theorem dlsym_next_spec {order : List Module}
    (honce : order.countP Module.isInterposer = 1) {name : String} {h : Handle}
    (hr : dlsym_next order name = some h) :
    h.name = name ∧ selfIndex order < h.modIdx ∧
      ∃ defs impl, order[h.modIdx]? = some (.lib defs) ∧ defs.lookup name = some impl ∧
        implAt order h = some impl := by
  unfold dlsym_next at hr
  obtain ⟨h1, h2, m, h3, h4⟩ := findFrom_some hr
  rw [List.getElem?_drop] at h3
  have e : selfIndex order + 1 + (h.modIdx - (selfIndex order + 1)) = h.modIdx := by omega
  rw [e] at h3
  have hlt : selfIndex order < h.modIdx := by omega
  have hni := after_self_not_interposer honce hlt h3
  cases m with
  | interposer => simp [Module.isInterposer] at hni
  | lib defs =>
    simp only [Module.defines] at h4
    obtain ⟨impl, himpl⟩ := Option.isSome_iff_exists.mp h4
    refine ⟨h1, hlt, defs, impl, h3, himpl, ?_⟩
    simp [implAt, h3, h1, himpl]


theorem World.append_empty (w : World) : w.append World.empty = w := by
  simp [World.append, World.empty]

theorem World.append_assoc (a b c : World) :
    (a.append b).append c = a.append (b.append c) := by
  simp [World.append]

theorem Outcome.shift_bind (w : World) (o : Outcome) (k k0 : Int → World → Outcome)
    (hk : ∀ v w0, k v (w.append w0) = (k0 v w0).shift w) :
    (o.shift w).bind k = (o.bind k0).shift w := by
  cases o with
  | ret v w0 => simp [Outcome.shift, Outcome.bind, hk]
  | crash w0 => simp [Outcome.shift, Outcome.bind]
  | outOfFuel => simp [Outcome.shift, Outcome.bind]

theorem callPtr_frame {call : Call} (hc : call.Framed) (p : Option Handle) (s : CStr)
    (args : List Arg) (w w0 : World) :
    callPtr call p s args (w.append w0) = (callPtr call p s args w0).shift w := by
  cases p with
  | none => simp [callPtr, Outcome.shift, World.append]
  | some h =>
    simp only [callPtr]
    have := hc h s args w ⟨w0.out, w0.trace ++ [Event.call (some h) s args]⟩
    simpa [World.append] using this

theorem decorated_frame {call : Call} (hc : call.Framed) (order : List Module)
    (fwd : String) (s : CStr) (args : List Arg) (w w0 : World) :
    decorated order call fwd s args (w.append w0)
      = (decorated order call fwd s args w0).shift w := by
  simp only [decorated, MAKE_ORIG_GETTER, dlsym_RTLD_NEXT]
  have e1 : (⟨(w.append w0).out, (w.append w0).trace ++ [Event.lookup "printf"]⟩ : World)
      = w.append ⟨w0.out, w0.trace ++ [Event.lookup "printf"]⟩ := by
    simp [World.append]
  rw [e1, callPtr_frame hc]
  apply Outcome.shift_bind
  intro _ w2
  have e2 : (⟨(w.append w2).out, (w.append w2).trace ++ [Event.lookup fwd]⟩ : World)
      = w.append ⟨w2.out, w2.trace ++ [Event.lookup fwd]⟩ := by
    simp [World.append]
  rw [e2, callPtr_frame hc]
  apply Outcome.shift_bind
  intro ret w4
  rw [callPtr_frame hc]
  apply Outcome.shift_bind
  intro _ w5
  rfl

theorem exec_framed (order : List Module) (n : Nat) : (exec order n).Framed := by
  induction n with
  | zero => intro h s args w w0; simp [exec, Outcome.shift]
  | succ n ih =>
    intro h s args w w0
    unfold exec
    cases hm : order[h.modIdx]? with
    | none => simp [Outcome.shift]
    | some m =>
      cases m with
      | interposer =>
        simp only
        by_cases h1 : h.name = "printf"
        · simp only [h1, if_true, printf_eq_decorated]
          exact decorated_frame ih order _ s args w w0
        · by_cases h2 : h.name = "puts"
          · simp only [h2, if_true, puts_eq_decorated]
            have : ¬ ("puts" = "printf") := by decide
            simp only [this, if_false]
            exact decorated_frame ih order _ s [] w w0
          · simp [h1, h2, Outcome.shift]
      | lib defs =>
        simp only
        cases hl : defs.lookup h.name with
        | none => simp [Outcome.shift]
        | some impl => simp [Outcome.shift, World.append]

/-- A wrapper invocation does the same whatever the process did before. -/
theorem invoke_frame (order : List Module) (fuel : Nat) (i : Invocation) (w : World) :
    invoke order fuel i w = (invoke order fuel i World.empty).shift w := by
  have hw : w = w.append World.empty := (World.append_empty w).symm
  cases i with
  | printf format args =>
    simp only [invoke, printf_eq_decorated]
    conv_lhs => rw [hw]
    exact decorated_frame (exec_framed order fuel) order _ format args w World.empty
  | puts string =>
    simp only [invoke, puts_eq_decorated]
    conv_lhs => rw [hw]
    exact decorated_frame (exec_framed order fuel) order _ string [] w World.empty

/-- A format without `%` is copied as it is and consumes no argument. -/
theorem stdFormat_plain (s : CStr) (args : List Arg) (hs : '%' ∉ s) :
    stdFormat s args = some (s, args) := by
  induction s with
  | nil => simp [stdFormat]
  | cons c t ih =>
    have hc : c ≠ '%' := fun h => hs (by simp [h])
    have ht : '%' ∉ t := fun h => hs (by simp [h])
    cases t with
    | nil => simp [stdFormat, hc]
    | cons d r =>
      unfold stdFormat
      rw [if_neg hc, ih ht]
      rfl

theorem stdPrintf_plain (s : CStr) (args : List Arg) (hs : '%' ∉ s) :
    stdPrintf s args = ((s.length : Int), s) := by
  simp [stdPrintf, stdVprintf, stdFormat_plain s args hs]


theorem selfIndex_is_interposer {order : List Module}
    (honce : order.countP Module.isInterposer = 1) :
    ∃ m, order[selfIndex order]? = some m ∧ m.isInterposer = true := by
  unfold selfIndex
  induction order with
  | nil => simp at honce
  | cons a t ih =>
    rw [List.findIdx_cons]
    rw [List.countP_cons] at honce
    cases hp : a.isInterposer with
    | true => exact ⟨a, by simp, hp⟩
    | false =>
      rw [hp] at honce
      simp at honce
      obtain ⟨m, h1, h2⟩ := ih honce
      exact ⟨m, by simpa using h1, h2⟩

theorem callTargets_append (a b : List Event) :
    callTargets (a ++ b) = callTargets a ++ callTargets b := by
  induction a with
  | nil => rfl
  | cons e t ih => cases e <;> simp [callTargets, ih]

theorem lookupCount_append (name : String) (a b : List Event) :
    lookupCount name (a ++ b) = lookupCount name a + lookupCount name b := by
  induction a with
  | nil => simp [lookupCount]
  | cons e t ih => cases e <;> simp [lookupCount, ih, Nat.add_assoc]

/-- The three ways a wrapper invocation can go when this library occurs once in
the search order. -/
theorem decorated_cases {order : List Module}
    (honce : order.countP Module.isInterposer = 1) (n : Nat) (fwd : String) (s : CStr)
    (args : List Arg) (w : World) :
    (∃ w1 evs, decorated order (exec order (n + 1)) fwd s args w = .crash w1 ∧
        w1.trace = w.trace ++ evs ∧ callTargets evs = [none] ∧
        dlsym_next order "printf" = none) ∨
    (∃ w1 evs hp, decorated order (exec order (n + 1)) fwd s args w = .crash w1 ∧
        w1.trace = w.trace ++ evs ∧ callTargets evs = [some hp, none] ∧
        dlsym_next order "printf" = some hp ∧ dlsym_next order fwd = none) ∨
    (∃ v w1 evs hp hf, decorated order (exec order (n + 1)) fwd s args w = .ret v w1 ∧
        w1.trace = w.trace ++ evs ∧ callTargets evs = [some hp, some hf, some hp] ∧
        dlsym_next order "printf" = some hp ∧ dlsym_next order fwd = some hf) := by
  cases hrp : dlsym_next order "printf" with
  | none =>
    left
    exact ⟨_, _, decorated_printf_null _ fwd s args w hrp, rfl, rfl, rfl⟩
  | some hp =>
    obtain ⟨_, _, _, pi, _, _, hip⟩ := dlsym_next_spec honce hrp
    right
    cases hrf : dlsym_next order fwd with
    | none =>
      left
      exact ⟨_, _, hp, decorated_fwd_null n fwd s args w hrp hip hrf, rfl, rfl, rfl, rfl⟩
    | some hf =>
      obtain ⟨_, _, _, fi, _, _, hif⟩ := dlsym_next_spec honce hrf
      right
      exact ⟨_, _, _, hp, hf, decorated_resolved n fwd s args w hrp hip hrf hif,
        rfl, rfl, rfl, rfl⟩

/-- With this library once in the search order, one level of calls is all a
wrapper needs: more fuel changes nothing. -/
theorem decorated_fuel {order : List Module}
    (honce : order.countP Module.isInterposer = 1) (n : Nat) (fwd : String) (s : CStr)
    (args : List Arg) (w : World) :
    decorated order (exec order (n + 1)) fwd s args w
      = decorated order (exec order 1) fwd s args w := by
  cases hrp : dlsym_next order "printf" with
  | none =>
    rw [decorated_printf_null _ fwd s args w hrp, decorated_printf_null _ fwd s args w hrp]
  | some hp =>
    obtain ⟨_, _, _, pi, _, _, hip⟩ := dlsym_next_spec honce hrp
    cases hrf : dlsym_next order fwd with
    | none =>
      rw [decorated_fwd_null n fwd s args w hrp hip hrf,
        decorated_fwd_null 0 fwd s args w hrp hip hrf]
    | some hf =>
      obtain ⟨_, _, _, fi, _, _, hif⟩ := dlsym_next_spec honce hrf
      rw [decorated_resolved n fwd s args w hrp hip hrf hif,
        decorated_resolved 0 fwd s args w hrp hip hrf hif]


theorem handle_not_interposer {order : List Module}
    (honce : order.countP Module.isInterposer = 1) {name : String} {h : Handle}
    (hr : dlsym_next order name = some h) :
    order[h.modIdx]? ≠ some Module.interposer ∧ (implAt order h).isSome = true := by
  obtain ⟨_, _, defs, impl, hm, _, hi⟩ := dlsym_next_spec honce hr
  refine ⟨?_, by simp [hi]⟩
  rw [hm]
  intro hc
  cases hc

theorem decorated_bounded {order : List Module}
    (honce : order.countP Module.isInterposer = 1) (n : Nat) (fwd : String) (s : CStr)
    (args : List Arg) (w : World) :
    BoundedNoReentry order fwd w (decorated order (exec order (n + 1)) fwd s args w) := by
  rcases decorated_cases honce n fwd s args w with
    ⟨w1, evs, ho, ht, hc, hnp⟩ | ⟨w1, evs, hp, ho, ht, hc, hrp, hnf⟩ |
    ⟨v, w1, evs, hp, hf, ho, ht, hc, hrp, hrf⟩
  · rw [ho]
    refine ⟨by simp, evs, ht, by simp [hc], ?_, ?_⟩
    · intro h hh; simp [hc] at hh
    · intro h1 _; simp [hnp] at h1
  · rw [ho]
    refine ⟨by simp, evs, ht, by simp [hc], ?_, ?_⟩
    · intro h hh
      simp [hc] at hh
      subst hh
      exact handle_not_interposer honce hrp
    · intro _ h2; simp [hnf] at h2
  · rw [ho]
    refine ⟨by simp, evs, ht, by simp [hc], ?_, ?_⟩
    · intro h hh
      simp [hc] at hh
      rcases hh with rfl | rfl | rfl
      · exact handle_not_interposer honce hrp
      · exact handle_not_interposer honce hrf
      · exact handle_not_interposer honce hrp
    · intro _ _
      exact ⟨⟨v, w1, rfl⟩, by simp [hc], by simp [hc]⟩

/-- With the three originals resolved, an invocation returns and adds one lookup of
`printf` and one lookup of the function it forwards to. -/
theorem invoke_lookups {order : List Module} {hp hv hu : Handle} {pi vi ui : Impl}
    (fuel : Nat)
    (hrp : dlsym_next order "printf" = some hp) (hip : implAt order hp = some pi)
    (hrv : dlsym_next order "vprintf" = some hv) (hiv : implAt order hv = some vi)
    (hru : dlsym_next order "puts" = some hu) (hiu : implAt order hu = some ui)
    (i : Invocation) (w : World) :
    ∃ v1 w1, invoke order (fuel + 1) i w = .ret v1 w1 ∧
      lookupCount "printf" w1.trace = lookupCount "printf" w.trace + 1 ∧
      lookupCount "vprintf" w1.trace
        = lookupCount "vprintf" w.trace + countPrintf [i] ∧
      lookupCount "puts" w1.trace = lookupCount "puts" w.trace + countPuts [i] := by
  cases i with
  | printf format args =>
    have hrun : invoke order (fuel + 1) (.printf format args) w = _ :=
      decorated_resolved fuel _ format args w hrp hip hrv hiv
    refine ⟨_, _, hrun, ?_, ?_, ?_⟩
    · simp [lookupCount_append, lookupCount]
    · simp [lookupCount_append, lookupCount, countPrintf]
    · simp [lookupCount_append, lookupCount, countPuts]
  | puts string =>
    have hrun : invoke order (fuel + 1) (.puts string) w = _ :=
      decorated_resolved fuel _ string [] w hrp hip hru hiu
    refine ⟨_, _, hrun, ?_, ?_, ?_⟩
    · simp [lookupCount_append, lookupCount]
    · simp [lookupCount_append, lookupCount, countPrintf]
    · simp [lookupCount_append, lookupCount, countPuts]

end Libtroll

open Libtroll

/-- C1: with this library occurring once in the search order, each getter asks
`dlsym(RTLD_NEXT, ·)` for its own name; a handle so obtained carries that name,
lies strictly after this library's position and designates a definition in another
module, never this library's own; and every invocation of the `printf` or `puts`
wrapper ends with one level of calls (more fuel changes nothing, fuel never runs
out), makes at most three calls through function pointers, none into this library,
and, when its two lookups succeed, returns after exactly three calls, none through
a null pointer. -/
theorem C1_resolution_skips_interposer (order : List Module)
    (honce : order.countP Module.isInterposer = 1) :
    (∃ m, order[selfIndex order]? = some m ∧ m.isInterposer = true) ∧
    (∀ w, get_orig_printf order w = (dlsym_next order "printf",
            ⟨w.out, w.trace ++ [Event.lookup "printf"]⟩) ∧
          get_orig_vprintf order w = (dlsym_next order "vprintf",
            ⟨w.out, w.trace ++ [Event.lookup "vprintf"]⟩) ∧
          get_orig_puts order w = (dlsym_next order "puts",
            ⟨w.out, w.trace ++ [Event.lookup "puts"]⟩)) ∧
    (∀ name h, dlsym_next order name = some h →
        h.name = name ∧ selfIndex order < h.modIdx ∧
        order[h.modIdx]? ≠ some Module.interposer ∧ (implAt order h).isSome = true) ∧
    (∀ fuel format args w,
        printf order (exec order (fuel + 1)) format args w
          = printf order (exec order 1) format args w ∧
        BoundedNoReentry order "vprintf" w
          (printf order (exec order (fuel + 1)) format args w)) ∧
    (∀ fuel string w,
        puts order (exec order (fuel + 1)) string w
          = puts order (exec order 1) string w ∧
        BoundedNoReentry order "puts" w
          (puts order (exec order (fuel + 1)) string w)) := by
  refine ⟨selfIndex_is_interposer honce, fun w => ⟨rfl, rfl, rfl⟩, ?_, ?_, ?_⟩
  · intro name h hr
    obtain ⟨h1, h2, _⟩ := dlsym_next_spec honce hr
    exact ⟨h1, h2, handle_not_interposer honce hr⟩
  · intro fuel format args w
    simp only [printf_eq_decorated]
    exact ⟨decorated_fuel honce fuel _ format args w,
      decorated_bounded honce fuel _ format args w⟩
  · intro fuel string w
    simp only [puts_eq_decorated]
    exact ⟨decorated_fuel honce fuel _ string [] w,
      decorated_bounded honce fuel _ string [] w⟩

/-- C1 at the usual search order `[this library, libc]`: the `puts` wrapper run
with more fuel than needed behaves as with one level of calls. -/
theorem C1_resolution_skips_interposer_witness :
    preloaded.countP Module.isInterposer = 1 ∧
    BoundedNoReentry preloaded "puts" World.empty
      (puts preloaded (exec preloaded 3) ['h', 'i'] World.empty) :=
  ⟨by decide, ((C1_resolution_skips_interposer preloaded (by decide)).2.2.2.2
    2 ['h', 'i'] World.empty).2⟩

/-- Without the uniqueness assumed in C1 the model does recurse: with this library
twice in the search order the lookup yields the wrapper itself and the run exhausts
its fuel. -/
theorem reentry_when_interposer_twice :
    printf [.interposer, .interposer, libc] (exec [.interposer, .interposer, libc] 6)
      ['x'] [] World.empty = .outOfFuel := by
  decide


/-- C2: when the lookups succeed, the `printf` wrapper returns the value the
original `vprintf` returns for the caller's format and arguments, and the `puts`
wrapper returns the value the original `puts` returns for the caller's string,
whatever these values are and whatever the original `printf` returns for the two
decoration writes. -/
theorem C2_return_value_is_the_forwarded_result (order : List Module) (fuel : Nat)
    (w : World) (hp : Handle) (pi : Impl)
    (hrp : dlsym_next order "printf" = some hp) (hip : implAt order hp = some pi) :
    (∀ hv vi, dlsym_next order "vprintf" = some hv → implAt order hv = some vi →
      ∀ format args, ∃ w1,
        printf order (exec order (fuel + 1)) format args w
          = .ret (vi format args).1 w1) ∧
    (∀ hu ui, dlsym_next order "puts" = some hu → implAt order hu = some ui →
      ∀ string, ∃ w1,
        puts order (exec order (fuel + 1)) string w = .ret (ui string []).1 w1) := by
  constructor
  · intro hv vi hrv hiv format args
    exact ⟨_, by
      rw [printf_eq_decorated]
      exact decorated_resolved fuel _ format args w hrp hip hrv hiv⟩
  · intro hu ui hru hiu string
    exact ⟨_, by
      rw [puts_eq_decorated]
      exact decorated_resolved fuel _ string [] w hrp hip hru hiu⟩

/-- C2 on a library whose three functions fail: both wrappers return the negative
value of the forwarded call. -/
theorem C2_return_value_is_the_forwarded_result_witness :
    dlsym_next [.interposer, failingLibc] "printf" = some ⟨1, "printf"⟩ ∧
    (∃ w1, printf [.interposer, failingLibc] (exec [.interposer, failingLibc] 1)
        ['%', 'd'] [Arg.int 7] World.empty = .ret (-1) w1) ∧
    (∃ w1, puts [.interposer, failingLibc] (exec [.interposer, failingLibc] 1)
        ['a'] World.empty = .ret (-1) w1) :=
  ⟨by decide,
   (C2_return_value_is_the_forwarded_result [.interposer, failingLibc] 0 World.empty
      ⟨1, "printf"⟩ (fun _ _ => (-1, [])) (by decide) rfl).1
      ⟨1, "vprintf"⟩ (fun _ _ => (-1, [])) (by decide) rfl ['%', 'd'] [Arg.int 7],
   (C2_return_value_is_the_forwarded_result [.interposer, failingLibc] 0 World.empty
      ⟨1, "printf"⟩ (fun _ _ => (-1, [])) (by decide) rfl).2
      ⟨1, "puts"⟩ (fun _ _ => (-1, [])) (by decide) rfl ['a']⟩

/-- C3: when the lookups succeed and the original `printf` copies a format without
`%` as it is, the bytes a wrapper appends are the opening sequence, then the bytes
the forwarded original (`vprintf`, resp. `puts`) appends for the caller's own
arguments, then the closing sequence; the calls made are the opening write, one
forwarded call, the closing write, in this order. -/
theorem C3_output_is_begin_original_end (order : List Module) (fuel : Nat)
    (w : World) (hp : Handle) (pi : Impl)
    (hrp : dlsym_next order "printf" = some hp) (hip : implAt order hp = some pi)
    (hplain : ∀ s args, '%' ∉ s → (pi s args).2 = s) :
    (∀ hv vi, dlsym_next order "vprintf" = some hv → implAt order hv = some vi →
      ∀ format args, ∃ v w1 evs,
        printf order (exec order (fuel + 1)) format args w = .ret v w1 ∧
        w1.out = w.out ++ (TTY_BOLD ++ TTY_PINK) ++ (vi format args).2 ++ TTY_RESET ∧
        w1.trace = w.trace ++ evs ∧
        callsOf evs = [.call (some hp) (TTY_BOLD ++ TTY_PINK) [],
          .call (some hv) format args, .call (some hp) TTY_RESET []]) ∧
    (∀ hu ui, dlsym_next order "puts" = some hu → implAt order hu = some ui →
      ∀ string, ∃ v w1 evs,
        puts order (exec order (fuel + 1)) string w = .ret v w1 ∧
        w1.out = w.out ++ (TTY_BOLD ++ TTY_PINK) ++ (ui string []).2 ++ TTY_RESET ∧
        w1.trace = w.trace ++ evs ∧
        callsOf evs = [.call (some hp) (TTY_BOLD ++ TTY_PINK) [],
          .call (some hu) string [], .call (some hp) TTY_RESET []]) := by
  have hb : (pi (TTY_BOLD ++ TTY_PINK) []).2 = TTY_BOLD ++ TTY_PINK :=
    hplain _ _ (by decide)
  have he : (pi TTY_RESET []).2 = TTY_RESET := hplain _ _ (by decide)
  constructor
  · intro hv vi hrv hiv format args
    have hrun := decorated_resolved fuel _ format args w hrp hip hrv hiv
    rw [← printf_eq_decorated] at hrun
    refine ⟨_, _, _, hrun, ?_, rfl, rfl⟩
    simp only [hb, he]
  · intro hu ui hru hiu string
    have hrun := decorated_resolved fuel _ string [] w hrp hip hru hiu
    rw [← puts_eq_decorated] at hrun
    refine ⟨_, _, _, hrun, ?_, rfl, rfl⟩
    simp only [hb, he]

/-- C3 at the usual search order with the standard library, for `puts("hi")`. -/
theorem C3_output_is_begin_original_end_witness :
    dlsym_next preloaded "printf" = some ⟨1, "printf"⟩ ∧
    (∀ s args, '%' ∉ s → (stdPrintf s args).2 = s) ∧
    ∃ v w1 evs, puts preloaded (exec preloaded 1) ['h', 'i'] World.empty = .ret v w1 ∧
      w1.out = World.empty.out ++ (TTY_BOLD ++ TTY_PINK) ++ (stdPuts ['h', 'i'] []).2
        ++ TTY_RESET ∧
      w1.trace = World.empty.trace ++ evs ∧
      callsOf evs = [.call (some ⟨1, "printf"⟩) (TTY_BOLD ++ TTY_PINK) [],
        .call (some ⟨1, "puts"⟩) ['h', 'i'] [], .call (some ⟨1, "printf"⟩) TTY_RESET []] :=
  ⟨by decide, fun s args hs => by rw [stdPrintf_plain s args hs],
   (C3_output_is_begin_original_end preloaded 0 World.empty ⟨1, "printf"⟩ stdPrintf
      (by decide) rfl (fun s args hs => by rw [stdPrintf_plain s args hs])).2
      ⟨1, "puts"⟩ stdPuts (by decide) rfl ['h', 'i']⟩


/-- C4, as stated, fails: with the standard originals and an empty stream the
`printf` wrapper called with `"Value: %d\n"` and 42 does not return 9. -/
theorem C4_returns_nine_refuted :
    ¬ ∃ w1, printf preloaded (exec preloaded 1) "Value: %d\n".toList [Arg.int 42]
        World.empty = .ret 9 w1 := by
  rintro ⟨w1, h⟩
  have h10 : (printf preloaded (exec preloaded 1) "Value: %d\n".toList [Arg.int 42]
      World.empty).value? = some 10 := by decide
  rw [h] at h10
  simp [Outcome.value?] at h10

/-- C4, amended: with the standard originals and an empty stream the `printf`
wrapper called with `"Value: %d\n"` and 42 writes exactly
`"\x1b[1m\x1b[95mValue: 42\n\x1b[0m"` and returns 10, the number of characters of
`"Value: 42\n"`. -/
theorem C4_value_scenario (fuel : Nat) :
    TTY_BOLD ++ TTY_PINK = "\x1b[1m\x1b[95m".toList ∧ TTY_RESET = "\x1b[0m".toList ∧
    "Value: 42\n".toList.length = 10 ∧
    ∃ w1, printf preloaded (exec preloaded (fuel + 1)) "Value: %d\n".toList [Arg.int 42]
        World.empty = .ret 10 w1 ∧
      w1.out = "\x1b[1m\x1b[95mValue: 42\n\x1b[0m".toList := by
  refine ⟨by decide, by decide, by decide, ?_⟩
  have hrun := @decorated_resolved preloaded ⟨1, "printf"⟩ ⟨1, "vprintf"⟩ stdPrintf
    stdVprintf fuel "vprintf" "Value: %d\n".toList [Arg.int 42] World.empty
    (by decide) rfl (by decide) rfl
  rw [← printf_eq_decorated] at hrun
  have hv : (stdVprintf "Value: %d\n".toList [Arg.int 42]).1 = 10 := by decide
  rw [hrun, hv]
  exact ⟨_, rfl, by decide⟩

/-- C5, as stated, fails: with the standard originals, the `puts` wrapper called
with `"hi"` and the `printf` wrapper called with the format `"hi"` and no argument
do not write the same bytes. -/
theorem C5_puts_equals_printf_refuted :
    '%' ∉ "hi".toList ∧
    (puts preloaded (exec preloaded 1) "hi".toList World.empty).out
      ≠ (printf preloaded (exec preloaded 1) "hi".toList [] World.empty).out := by
  decide

/-- C5, amended: with the standard originals, for every string `S` without `%`
the `puts` wrapper called with `S` appends the bytes the `printf` wrapper appends
for the format `S` followed by a new-line and no argument: the opening sequence,
`S`, a new-line, the closing sequence. -/
theorem C5_puts_equals_printf_with_newline (order : List Module) (fuel : Nat) (w : World)
    (hp hv hu : Handle)
    (hrp : dlsym_next order "printf" = some hp) (hip : implAt order hp = some stdPrintf)
    (hrv : dlsym_next order "vprintf" = some hv) (hiv : implAt order hv = some stdVprintf)
    (hru : dlsym_next order "puts" = some hu) (hiu : implAt order hu = some stdPuts)
    (S : CStr) (hS : '%' ∉ S) :
    (puts order (exec order (fuel + 1)) S w).out
      = (printf order (exec order (fuel + 1)) (S ++ ['\n']) [] w).out ∧
    (puts order (exec order (fuel + 1)) S w).out
      = w.out ++ (TTY_BOLD ++ TTY_PINK) ++ S ++ ['\n'] ++ TTY_RESET := by
  have hS1 : '%' ∉ S ++ ['\n'] := by
    intro h
    rcases List.mem_append.mp h with h | h
    · exact hS h
    · simp at h
  have hb : stdPrintf (TTY_BOLD ++ TTY_PINK) [] = (9, TTY_BOLD ++ TTY_PINK) := by decide
  have he : stdPrintf TTY_RESET [] = (4, TTY_RESET) := by decide
  have hf : (stdVprintf (S ++ ['\n']) []).2 = S ++ ['\n'] := by
    simp [stdVprintf, stdFormat_plain _ [] hS1]
  rw [puts_eq_decorated, printf_eq_decorated,
    decorated_resolved fuel _ S [] w hrp hip hru hiu,
    decorated_resolved fuel _ (S ++ ['\n']) [] w hrp hip hrv hiv]
  simp [Outcome.out, hb, he, hf, stdPuts]

/-- C5, amended, at the usual search order for `S = "hi"`. -/
theorem C5_puts_equals_printf_with_newline_witness :
    dlsym_next preloaded "printf" = some ⟨1, "printf"⟩ ∧
    dlsym_next preloaded "vprintf" = some ⟨1, "vprintf"⟩ ∧
    dlsym_next preloaded "puts" = some ⟨1, "puts"⟩ ∧
    '%' ∉ ['h', 'i'] ∧
    (puts preloaded (exec preloaded 1) ['h', 'i'] World.empty).out
      = (printf preloaded (exec preloaded 1) (['h', 'i'] ++ ['\n']) [] World.empty).out :=
  ⟨by decide, by decide, by decide, by decide,
   (C5_puts_equals_printf_with_newline preloaded 0 World.empty ⟨1, "printf"⟩
      ⟨1, "vprintf"⟩ ⟨1, "puts"⟩ (by decide) rfl (by decide) rfl (by decide) rfl
      ['h', 'i'] (by decide)).1⟩


/-- C6, as stated, fails: with a search order in which `printf` is defined after
this library and `vprintf` is not, the `printf` wrapper has written the opening
sequence when it calls through the null `vprintf` handle; nothing aborts before. -/
theorem C6_missing_handle_refuted :
    dlsym_next [.interposer, printfOnly] "vprintf" = none ∧
    printf [.interposer, printfOnly] (exec [.interposer, printfOnly] 1) ['x'] []
        World.empty
      = .crash ⟨TTY_BOLD ++ TTY_PINK,
          [.lookup "printf", .call (some ⟨1, "printf"⟩) (TTY_BOLD ++ TTY_PINK) [],
           .lookup "vprintf", .call none ['x'] []]⟩ := by
  decide

/-- C6, amended: the wrappers do not test the handles they obtain.  When the lookup
of `printf` yields null, the first call of either wrapper goes through the null
pointer, with nothing written.  When `printf` is resolved and the lookup of the
forwarded function (`vprintf`, resp. `puts`) yields null, the opening sequence is
written through the original `printf` and the next call goes through the null
pointer.  In both cases the wrapper does not return and the closing sequence is not
written. -/
theorem C6_missing_handle_is_called (order : List Module) (fuel : Nat) (w : World) :
    (dlsym_next order "printf" = none →
      (∀ format args, printf order (exec order fuel) format args w
          = .crash ⟨w.out, w.trace ++ [.lookup "printf",
              .call none (TTY_BOLD ++ TTY_PINK) []]⟩) ∧
      (∀ string, puts order (exec order fuel) string w
          = .crash ⟨w.out, w.trace ++ [.lookup "printf",
              .call none (TTY_BOLD ++ TTY_PINK) []]⟩)) ∧
    (∀ hp pi, dlsym_next order "printf" = some hp → implAt order hp = some pi →
      (dlsym_next order "vprintf" = none →
        ∀ format args, printf order (exec order (fuel + 1)) format args w
          = .crash ⟨w.out ++ (pi (TTY_BOLD ++ TTY_PINK) []).2,
              w.trace ++ [.lookup "printf", .call (some hp) (TTY_BOLD ++ TTY_PINK) [],
                .lookup "vprintf", .call none format args]⟩) ∧
      (dlsym_next order "puts" = none →
        ∀ string, puts order (exec order (fuel + 1)) string w
          = .crash ⟨w.out ++ (pi (TTY_BOLD ++ TTY_PINK) []).2,
              w.trace ++ [.lookup "printf", .call (some hp) (TTY_BOLD ++ TTY_PINK) [],
                .lookup "puts", .call none string []]⟩)) := by
  refine ⟨fun hn => ⟨fun format args => ?_, fun string => ?_⟩,
    fun hp pi hrp hip => ⟨fun hn format args => ?_, fun hn string => ?_⟩⟩
  · rw [printf_eq_decorated]; exact decorated_printf_null _ _ format args w hn
  · rw [puts_eq_decorated]; exact decorated_printf_null _ _ string [] w hn
  · rw [printf_eq_decorated]; exact decorated_fwd_null fuel _ format args w hrp hip hn
  · rw [puts_eq_decorated]; exact decorated_fwd_null fuel _ string [] w hrp hip hn

/-- C6, amended, on two search orders: this library alone (`printf` unresolved) and
this library followed by a module defining `printf` only (`puts` unresolved). -/
theorem C6_missing_handle_is_called_witness :
    dlsym_next [Module.interposer] "printf" = none ∧
    puts [.interposer] (exec [.interposer] 1) ['x'] World.empty
      = .crash ⟨[], [.lookup "printf", .call none (TTY_BOLD ++ TTY_PINK) []]⟩ ∧
    dlsym_next [.interposer, printfOnly] "printf" = some ⟨1, "printf"⟩ ∧
    dlsym_next [.interposer, printfOnly] "puts" = none ∧
    puts [.interposer, printfOnly] (exec [.interposer, printfOnly] 1) ['x'] World.empty
      = .crash ⟨[] ++ (stdPrintf (TTY_BOLD ++ TTY_PINK) []).2,
          [] ++ [.lookup "printf", .call (some ⟨1, "printf"⟩) (TTY_BOLD ++ TTY_PINK) [],
            .lookup "puts", .call none ['x'] []]⟩ :=
  ⟨by decide,
   ((C6_missing_handle_is_called [.interposer] 1 World.empty).1 (by decide)).2 ['x'],
   by decide, by decide,
   ((C6_missing_handle_is_called [.interposer, printfOnly] 0 World.empty).2
      ⟨1, "printf"⟩ stdPrintf (by decide) rfl).2 (by decide) ['x']⟩

/-- C7, as stated, fails: two invocations of the `puts` wrapper perform the
dynamic lookup of `printf` twice and that of `puts` twice. -/
theorem C7_lookup_once_refuted :
    ¬ (lookupCount "printf"
        (runAll preloaded 1 [.puts ['a'], .puts ['a']] 0 World.empty).trace ≤ 1) ∧
    lookupCount "puts"
        (runAll preloaded 1 [.puts ['a'], .puts ['a']] 0 World.empty).trace = 2 := by
  decide


/-- C7, amended: no handle is stored; each getter call performs one dynamic lookup
of its own name.  With the three originals resolved, a sequence of wrapper
invocations runs to its end and has then looked up `printf` once per invocation,
`vprintf` once per invocation of the `printf` wrapper and `puts` once per
invocation of the `puts` wrapper. -/
theorem C7_one_lookup_per_getter_call (order : List Module) (fuel : Nat)
    (hp hv hu : Handle) (pi vi ui : Impl)
    (hrp : dlsym_next order "printf" = some hp) (hip : implAt order hp = some pi)
    (hrv : dlsym_next order "vprintf" = some hv) (hiv : implAt order hv = some vi)
    (hru : dlsym_next order "puts" = some hu) (hiu : implAt order hu = some ui) :
    (∀ w, lookupCount "printf" (get_orig_printf order w).2.trace
            = lookupCount "printf" w.trace + 1 ∧
          lookupCount "vprintf" (get_orig_vprintf order w).2.trace
            = lookupCount "vprintf" w.trace + 1 ∧
          lookupCount "puts" (get_orig_puts order w).2.trace
            = lookupCount "puts" w.trace + 1) ∧
    (∀ invs v w, ∃ v1 w1, runAll order (fuel + 1) invs v w = .ret v1 w1 ∧
      lookupCount "printf" w1.trace = lookupCount "printf" w.trace + invs.length ∧
      lookupCount "vprintf" w1.trace = lookupCount "vprintf" w.trace + countPrintf invs ∧
      lookupCount "puts" w1.trace = lookupCount "puts" w.trace + countPuts invs) := by
  constructor
  · intro w
    simp [get_orig_printf, get_orig_vprintf, get_orig_puts, MAKE_ORIG_GETTER,
      dlsym_RTLD_NEXT, lookupCount_append, lookupCount]
  · intro invs
    induction invs with
    | nil =>
      intro v w
      exact ⟨v, w, rfl, by simp, by simp [countPrintf], by simp [countPuts]⟩
    | cons i is ih =>
      intro v w
      obtain ⟨v1, w1, h1, a1, b1, c1⟩ :=
        invoke_lookups fuel hrp hip hrv hiv hru hiu i w
      obtain ⟨v2, w2, h2, a2, b2, c2⟩ := ih v1 w1
      refine ⟨v2, w2, ?_, ?_, ?_, ?_⟩
      · simp only [runAll, h1, Outcome.bind]
        exact h2
      · rw [a2, a1, List.length_cons]; omega
      · rw [b2, b1]
        cases i <;> simp [countPrintf]; omega
      · rw [c2, c1]
        cases i <;> simp [countPuts]; omega

/-- C7, amended, at the usual search order: after three invocations `printf` has
been looked up three times. -/
theorem C7_one_lookup_per_getter_call_witness :
    dlsym_next preloaded "printf" = some ⟨1, "printf"⟩ ∧
    dlsym_next preloaded "vprintf" = some ⟨1, "vprintf"⟩ ∧
    dlsym_next preloaded "puts" = some ⟨1, "puts"⟩ ∧
    ∃ v1 w1, runAll preloaded 1 [.puts ['a'], .printf ['b'] [], .puts ['a']] 0
        World.empty = .ret v1 w1 ∧
      lookupCount "printf" w1.trace = lookupCount "printf" World.empty.trace + 3 ∧
      lookupCount "vprintf" w1.trace = lookupCount "vprintf" World.empty.trace + 1 ∧
      lookupCount "puts" w1.trace = lookupCount "puts" World.empty.trace + 2 :=
  ⟨by decide, by decide, by decide,
   (C7_one_lookup_per_getter_call preloaded 0 ⟨1, "printf"⟩ ⟨1, "vprintf"⟩ ⟨1, "puts"⟩
      stdPrintf stdVprintf stdPuts (by decide) rfl (by decide) rfl (by decide) rfl).2
      [.puts ['a'], .printf ['b'] [], .puts ['a']] 0 World.empty⟩

/-- C8: for a fixed search order each getter yields the same handle in every state
of the process, so after any number of wrapper invocations, and leaves the output
stream as it is; and an invocation of a wrapper does, from any state, what it does
from the empty state: the same value, the same bytes appended, the same lookups
and calls.  Hence two invocations with the same arguments call the same originals
and write the same decorated output. -/
theorem C8_resolution_is_stable (order : List Module) (fuel : Nat) :
    (∀ w1 w2, (get_orig_printf order w1).1 = (get_orig_printf order w2).1 ∧
              (get_orig_vprintf order w1).1 = (get_orig_vprintf order w2).1 ∧
              (get_orig_puts order w1).1 = (get_orig_puts order w2).1) ∧
    (∀ w, (get_orig_printf order w).2.out = w.out ∧
          (get_orig_vprintf order w).2.out = w.out ∧
          (get_orig_puts order w).2.out = w.out) ∧
    (∀ format args w1 w2,
      printf order (exec order fuel) format args w1
        = (printf order (exec order fuel) format args World.empty).shift w1 ∧
      printf order (exec order fuel) format args w2
        = (printf order (exec order fuel) format args World.empty).shift w2) ∧
    (∀ string w1 w2,
      puts order (exec order fuel) string w1
        = (puts order (exec order fuel) string World.empty).shift w1 ∧
      puts order (exec order fuel) string w2
        = (puts order (exec order fuel) string World.empty).shift w2) := by
  refine ⟨fun _ _ => ⟨rfl, rfl, rfl⟩, fun _ => ⟨rfl, rfl, rfl⟩, ?_, ?_⟩
  · intro format args w1 w2
    exact ⟨invoke_frame order fuel (.printf format args) w1,
      invoke_frame order fuel (.printf format args) w2⟩
  · intro string w1 w2
    exact ⟨invoke_frame order fuel (.puts string) w1,
      invoke_frame order fuel (.puts string) w2⟩

/-- C9: the opening sequence `TTY_BOLD TTY_PINK` is the 9 bytes ESC [ 1 m ESC [ 9 5 m
and the closing sequence `TTY_RESET` the 4 bytes ESC [ 0 m; neither contains `%`;
so standard formatting copies each as it is, consumes none of the arguments it is
given and does not fail when given none, and the standard `printf` called as the
wrappers call it writes these 9 and 4 bytes and returns 9 and 4. -/
theorem C9_decorations_have_no_conversion :
    TTY_BOLD ++ TTY_PINK
      = [Char.ofNat 27, '[', '1', 'm', Char.ofNat 27, '[', '9', '5', 'm'] ∧
    (TTY_BOLD ++ TTY_PINK).length = 9 ∧
    TTY_RESET = [Char.ofNat 27, '[', '0', 'm'] ∧
    TTY_RESET.length = 4 ∧
    '%' ∉ TTY_BOLD ++ TTY_PINK ∧ '%' ∉ TTY_RESET ∧
    (∀ args, stdFormat (TTY_BOLD ++ TTY_PINK) args = some (TTY_BOLD ++ TTY_PINK, args)) ∧
    (∀ args, stdFormat TTY_RESET args = some (TTY_RESET, args)) ∧
    stdPrintf (TTY_BOLD ++ TTY_PINK) [] = (9, TTY_BOLD ++ TTY_PINK) ∧
    stdPrintf TTY_RESET [] = (4, TTY_RESET) := by
  refine ⟨by decide, by decide, by decide, by decide, by decide, by decide,
    fun args => stdFormat_plain _ args (by decide),
    fun args => stdFormat_plain _ args (by decide), by decide, by decide⟩

/-- C10: the results of the two decoration writes are not used.  Whatever values
`r1`, `r2` the original `printf` returns for the opening and closing writes and
whatever value `r` the forwarded call returns, negative ones included, the wrapper
makes the three calls in the order opening write, forwarded call, closing write,
and returns `r`. -/
theorem C10_decoration_results_discarded (order : List Module) (fuel : Nat) (w : World)
    (hp : Handle) (pi : Impl) (r1 r2 : Int) (b1 b2 : List Char)
    (hrp : dlsym_next order "printf" = some hp) (hip : implAt order hp = some pi)
    (h1 : pi (TTY_BOLD ++ TTY_PINK) [] = (r1, b1)) (h2 : pi TTY_RESET [] = (r2, b2)) :
    (∀ hv vi format args r b,
      dlsym_next order "vprintf" = some hv → implAt order hv = some vi →
      vi format args = (r, b) →
      printf order (exec order (fuel + 1)) format args w
        = .ret r ⟨w.out ++ b1 ++ b ++ b2,
            w.trace ++ [.lookup "printf", .call (some hp) (TTY_BOLD ++ TTY_PINK) [],
              .lookup "vprintf", .call (some hv) format args,
              .call (some hp) TTY_RESET []]⟩) ∧
    (∀ hu ui string r b,
      dlsym_next order "puts" = some hu → implAt order hu = some ui →
      ui string [] = (r, b) →
      puts order (exec order (fuel + 1)) string w
        = .ret r ⟨w.out ++ b1 ++ b ++ b2,
            w.trace ++ [.lookup "printf", .call (some hp) (TTY_BOLD ++ TTY_PINK) [],
              .lookup "puts", .call (some hu) string [],
              .call (some hp) TTY_RESET []]⟩) := by
  constructor
  · intro hv vi format args r b hrv hiv hr
    rw [printf_eq_decorated, decorated_resolved fuel _ format args w hrp hip hrv hiv,
      h1, h2, hr]
  · intro hu ui string r b hru hiu hr
    rw [puts_eq_decorated, decorated_resolved fuel _ string [] w hrp hip hru hiu,
      h1, h2, hr]

/-- C10 on a library whose `printf` fails on every call: both decoration writes
return -1 and write nothing, the forwarded `vprintf` writes 2 bytes, and the
wrapper returns 2. -/
theorem C10_decoration_results_discarded_witness :
    dlsym_next [.interposer, brokenPrintfLibc] "printf" = some ⟨1, "printf"⟩ ∧
    printf [.interposer, brokenPrintfLibc] (exec [.interposer, brokenPrintfLibc] 1)
        ['%', 'd'] [Arg.int 42] World.empty
      = .ret 2 ⟨[] ++ [] ++ ['4', '2'] ++ [],
          [] ++ [.lookup "printf", .call (some ⟨1, "printf"⟩) (TTY_BOLD ++ TTY_PINK) [],
            .lookup "vprintf", .call (some ⟨1, "vprintf"⟩) ['%', 'd'] [Arg.int 42],
            .call (some ⟨1, "printf"⟩) TTY_RESET []]⟩ :=
  ⟨by decide,
   (C10_decoration_results_discarded [.interposer, brokenPrintfLibc] 0 World.empty
      ⟨1, "printf"⟩ (fun _ _ => (-1, [])) (-1) (-1) [] [] (by decide) rfl rfl rfl).1
      ⟨1, "vprintf"⟩ stdVprintf ['%', 'd'] [Arg.int 42] 2 ['4', '2']
      (by decide) rfl (by decide)⟩

